import Mathlib

/-!
Shallow embedding of the persistence layer of ml-insights-hub:
`server/python-scripts/model_cache.py` (ModelCache) and
`server/python-scripts/model_versioning.py` (ModelVersionManager).

Python dictionaries are modelled as association lists (`List (key × value)`)
with first-match lookup, in-place replacement on assignment, and removal of
the stored entry on `del`.  The file system is part of the state: cache blobs
and version blobs are maps from paths to byte lists.  Wall-clock time
(`datetime.now()`) is passed in explicitly as a parameter.  Cryptographic
digests (`hashlib.sha256`) are modelled by an executable deterministic
digest of the input; every claim below depends only on the digest being a
deterministic function of the bytes, never on collision resistance.
-/

set_option linter.unusedVariables false

namespace MLIH

/-- Python dict lookup `d.get(k)` / `k in d`: first entry with the key. -/
def dictGet {α β : Type} [DecidableEq α] : List (α × β) → α → Option β
  | [], _ => none
  | (k1, v) :: t, k => if k1 = k then some v else dictGet t k

/-- Python dict assignment `d[k] = v`: replace in place, append if absent. -/
def dictSet {α β : Type} [DecidableEq α] : List (α × β) → α → β → List (α × β)
  | [], k, v => [(k, v)]
  | (k1, v1) :: t, k, v => if k1 = k then (k, v) :: t else (k1, v1) :: dictSet t k v

/-- Python dict deletion `del d[k]`: drop the entry with the key. -/
def dictRemove {α β : Type} [DecidableEq α] : List (α × β) → α → List (α × β)
  | [], _ => []
  | (k1, v1) :: t, k => if k1 = k then t else (k1, v1) :: dictRemove t k

/-- Python in-place field update `d[k].f = x`: rewrite the value at the key. -/
def dictUpdate {α β : Type} [DecidableEq α] : List (α × β) → α → (β → β) → List (α × β)
  | [], _, _ => []
  | (k1, v1) :: t, k, f => if k1 = k then (k1, f v1) :: t else (k1, v1) :: dictUpdate t k f

/-- Deterministic digest of a byte stream, standing for
`hashlib.sha256(...).hexdigest()` in `_calculate_model_hash`.  The claims use
only that the digest is a pure deterministic function of the content. -/
def contentDigest (bytes : List Nat) : Nat :=
  bytes.foldl (fun h b => (h * 31 + b % 256) % (2 ^ 64)) 5381

/-- Scalar JSON value, as found in a model configuration dictionary. -/
inductive JVal : Type where
  | jnum (n : Int)
  | jstr (s : String)
  | jbool (b : Bool)
  | jnull
deriving DecidableEq

/-- Rendering of one scalar JSON value, as `json.dumps` does. -/
def dumpJVal : JVal → String
  | .jnum n => toString n
  | .jstr s => "\"" ++ s ++ "\""
  | .jbool b => if b then "true" else "false"
  | .jnull => "null"

/-- Key order used by `json.dumps(config, sort_keys=True)`. -/
def keyLE (p q : String × JVal) : Prop := p.1 ≤ q.1

/-- Strict key order, used to show the sorted rendering is canonical. -/
def keyLT (p q : String × JVal) : Prop := p.1 < q.1

instance : DecidableRel keyLE := fun p q => inferInstanceAs (Decidable (p.1 ≤ q.1))

instance : DecidableRel keyLT := fun p q => inferInstanceAs (Decidable (p.1 < q.1))

instance : IsTotal (String × JVal) keyLE := ⟨fun a b => le_total a.1 b.1⟩

instance : IsTrans (String × JVal) keyLE := ⟨fun _ _ _ h1 h2 => le_trans h1 h2⟩

instance : IsAntisymm (String × JVal) keyLT := ⟨fun _ _ h1 h2 => absurd h1 (lt_asymm h2)⟩

/-- Embedding of `json.dumps(config, sort_keys=True)`: entries sorted by key,
rendered with the default `", "` and `": "` separators. -/
def jsonDumpsSorted (config : List (String × JVal)) : String :=
  "\x7b" ++
    String.intercalate ", "
      ((config.insertionSort keyLE).map (fun p => "\"" ++ p.1 ++ "\": " ++ dumpJVal p.2)) ++
  "\x7d"

namespace ModelCache

/-- Embedding of `ModelCache._generate_cache_key`: the key string
`f"{model_type}:{config_str}"` whose SHA-256 hex digest is the cache key.
The digest is a deterministic function of this string, so two calls produce
equal cache keys exactly when they produce equal key strings. -/
def generate_cache_key (model_type : String) (config : List (String × JVal)) : String :=
  model_type ++ ":" ++ jsonDumpsSorted config

/-- Content of a cache blob file at `{cache_key}.pkl`: either a well-formed
pickle of the model (identified with its serialized bytes) or corrupted data
on which `pickle.load` raises. -/
inductive CBlob : Type where
  | good (bytes : List Nat)
  | corrupt
deriving DecidableEq

/-- Metadata record kept per cache key in `metadata.json`. -/
structure CacheEntry : Type where
  model_type : String
  config : List (String × JVal)
  timestamp : ℚ
  last_accessed : ℚ
  file_size : Nat
  metadata : List (String × JVal)
deriving DecidableEq

/-- State of a `ModelCache`: the blob files on disk, the metadata document,
and the configured `ttl_hours`. -/
structure CacheState : Type where
  blobs : List (String × CBlob)
  metadata : List (String × CacheEntry)
  ttl_hours : ℚ
deriving DecidableEq

/-- Fresh cache with the default 24-hour TTL. -/
def emptyCache : CacheState := ⟨[], [], 24⟩

/-- Embedding of `ModelCache._is_cache_valid`: true when the key has a
metadata entry and `now < timestamp + ttl_hours`. -/
def is_cache_valid (st : CacheState) (cache_key : String) (now : ℚ) : Bool :=
  match dictGet st.metadata cache_key with
  | none => false
  | some e => decide (now < e.timestamp + st.ttl_hours)

/-- Embedding of `ModelCache._remove_cache`: delete the blob file and the
metadata entry for the key. -/
def remove_cache (st : CacheState) (cache_key : String) : CacheState :=
  { st with
      blobs := dictRemove st.blobs cache_key,
      metadata := dictRemove st.metadata cache_key }

/-- Embedding of `ModelCache.get`: miss when the blob file is absent (state
untouched); removal plus miss when the entry is expired; removal plus miss
when `pickle.load` fails; otherwise a hit that refreshes `last_accessed`. -/
def get (st : CacheState) (model_type : String) (config : List (String × JVal))
    (now : ℚ) : Option (List Nat) × CacheState :=
  let cache_key := generate_cache_key model_type config
  match dictGet st.blobs cache_key with
  | none => (none, st)
  | some blob =>
      if is_cache_valid st cache_key now then
        match blob with
        | .corrupt => (none, remove_cache st cache_key)
        | .good bytes =>
            (some bytes,
             { st with
                 metadata := dictUpdate st.metadata cache_key
                   (fun e => { e with last_accessed := now }) })
      else (none, remove_cache st cache_key)

/-- Embedding of `ModelCache.set`: write the pickle blob, then store a fresh
metadata entry with the current time as `timestamp` and `last_accessed`. -/
def set (st : CacheState) (model_type : String) (config : List (String × JVal))
    (bytes : List Nat) (metadata : Option (List (String × JVal))) (now : ℚ) : CacheState :=
  let cache_key := generate_cache_key model_type config
  { st with
      blobs := dictSet st.blobs cache_key (.good bytes),
      metadata := dictSet st.metadata cache_key
        ⟨model_type, config, now, now, bytes.length, metadata.getD []⟩ }

/-- Embedding of `ModelCache.clear_expired`: remove every invalid entry,
returning how many were removed. -/
def clear_expired (st : CacheState) (now : ℚ) : Nat × CacheState :=
  let expired := (st.metadata.filter (fun p => !(is_cache_valid st p.1 now))).map Prod.fst
  (expired.length, expired.foldl (fun s k => remove_cache s k) st)

/-- Embedding of `ModelCache.clear_all`: remove every entry. -/
def clear_all (st : CacheState) : Nat × CacheState :=
  ((st.metadata.map Prod.fst).length,
   (st.metadata.map Prod.fst).foldl (fun s k => remove_cache s k) st)

/-- Statistics reported by `ModelCache.get_stats` (`total_size_mb`, a float
rounding of `total_size_bytes`, is omitted). -/
structure CacheStats : Type where
  total_models : Nat
  valid_models : Nat
  expired_models : Nat
  total_size_bytes : Nat
  ttl_hours : ℚ
deriving DecidableEq

/-- Embedding of `ModelCache.get_stats`. -/
def get_stats (st : CacheState) (now : ℚ) : CacheStats :=
  let total := st.metadata.length
  let valid := (st.metadata.filter (fun p => is_cache_valid st p.1 now)).length
  ⟨total, valid, total - valid, (st.metadata.map (fun p => p.2.file_size)).sum, st.ttl_hours⟩

end ModelCache

namespace ModelVersionManager

/-- Value stored under a key of a version's `metadata["metrics"]` dict:
either something `float(...)` accepts (numbers and numeric strings, with the
exact rational value), or a value on which `float` raises. -/
inductive MVal : Type where
  | num (q : ℚ)
  | nonnum
deriving DecidableEq

/-- Result of Python `float(value)` inside `compare_versions`. -/
def floatOf : MVal → Option ℚ
  | .num q => some q
  | .nonnum => none

/-- Version metadata dict passed to `create_version`: the `set_as_current`
flag (`metadata.get("set_as_current")` truthy) and the optional `metrics`
sub-dict used by `compare_versions`. -/
structure VMeta : Type where
  set_as_current : Bool
  metrics : Option (List (String × MVal))
deriving DecidableEq

/-- One record of a model's `versions` list in `versions_metadata.json`.
`model_path` is the blob location `versions/{model_id}/{version_id}/{model_id}.pkl`,
identified by the pair `(model_id, version_id)` fixed at creation time. -/
structure VersionInfo : Type where
  version_id : String
  version_number : Nat
  version_tag : Option String
  model_path : String × String
  model_hash : Nat
  created_at : Nat
  metadata : Option VMeta
  is_active : Bool
  rollback_at : Option Nat
deriving DecidableEq

/-- Per-model entry of the registry metadata. -/
structure ModelMeta : Type where
  versions : List VersionInfo
  current_version : Option String
  created_at : Nat
deriving DecidableEq

/-- State of the version manager: the parsed `versions_metadata.json`, the
version blob files, and the main `{model_id}.pkl` files rollback writes. -/
structure RegistryState : Type where
  models : List (String × ModelMeta)
  versionBlobs : List ((String × String) × List Nat)
  mainModels : List (String × List Nat)
deriving DecidableEq

/-- Registry right after `_initialize_metadata` on a fresh directory. -/
def emptyRegistry : RegistryState := ⟨[], [], []⟩

/-- Error outcomes of the manager's operations (the `"error"` strings of the
returned dicts). -/
inductive VErr : Type where
  | modelNotFound
  | versionNotFound
  | fileNotFound
  | integrityViolation
  | invalidOperation
deriving DecidableEq

/-- Successful payload of `create_version`. -/
structure CreateResult : Type where
  version_info : VersionInfo
  total_versions : Nat
deriving DecidableEq

/-- Embedding of `ModelVersionManager.create_version`.  The caller passes the
source file's bytes (the code raises `FileNotFoundError` before touching any
state when the path does not exist, so only existing files reach this point).
The version number is `len(versions) + 1`; the record is appended inactive and
then flipped active — together with `current_version` — when it is the first
version or the metadata asks for activation.  No other record is touched. -/
def create_version (st : RegistryState) (model_id : String) (modelBytes : List Nat)
    (version_tag : Option String) (metadata : Option VMeta) (now : Nat) :
    CreateResult × RegistryState :=
  let mm := match dictGet st.models model_id with
    | some m => m
    | none => ⟨[], none, now⟩
  let version_number := mm.versions.length + 1
  let version_id := "v" ++ toString version_number
  let path := (model_id, version_id)
  let model_hash := contentDigest modelBytes
  let activate := version_number == 1 ||
    (match metadata with | some m => m.set_as_current | none => false)
  let vi : VersionInfo :=
    { version_id := version_id,
      version_number := version_number,
      version_tag := version_tag,
      model_path := path,
      model_hash := model_hash,
      created_at := now,
      metadata := metadata,
      is_active := activate,
      rollback_at := none }
  let mm2 : ModelMeta :=
    { mm with
        versions := mm.versions ++ [vi],
        current_version := if activate then some version_id else mm.current_version }
  (⟨vi, mm2.versions.length⟩,
   { st with
       models := dictSet st.models model_id mm2,
       versionBlobs := dictSet st.versionBlobs path modelBytes })

/-- Embedding of `ModelVersionManager.get_version`: look the model up, find
the first record with the requested id, require the blob file to exist, then
recompute the content hash and compare it with the recorded one. -/
def get_version (st : RegistryState) (model_id : String) (version_id : String) :
    Except VErr VersionInfo :=
  match dictGet st.models model_id with
  | none => .error .modelNotFound
  | some mm =>
      match mm.versions.find? (fun v => v.version_id == version_id) with
      | none => .error .versionNotFound
      | some vi =>
          match dictGet st.versionBlobs vi.model_path with
          | none => .error .fileNotFound
          | some b =>
              if contentDigest b ≠ vi.model_hash then .error .integrityViolation
              else .ok vi

/-- First loop of `rollback`: `version["is_active"] = False` for every record. -/
def deactivateAll (vs : List VersionInfo) : List VersionInfo :=
  vs.map (fun v => { v with is_active := false })

/-- Second loop of `rollback`: activate the first record with the id, stamp
its `rollback_at`, and `break`. -/
def activateFirst (vs : List VersionInfo) (version_id : String) (now : Nat) :
    List VersionInfo :=
  match vs with
  | [] => []
  | v :: t =>
      if v.version_id = version_id
      then { v with is_active := true, rollback_at := some now } :: t
      else v :: activateFirst t version_id now

/-- Embedding of `ModelVersionManager.rollback`: delegate lookup and the
integrity check to `get_version` (any failure is returned with the state
untouched), deactivate every record, activate the target, point
`current_version` at it, and copy the version blob over the main model file.
The `getD` defaults are unreachable: `get_version` succeeded, so the model
entry and the blob are present. -/
def rollback (st : RegistryState) (model_id : String) (version_id : String)
    (now : Nat) : Except VErr Unit × RegistryState :=
  match get_version st model_id version_id with
  | .error e => (.error e, st)
  | .ok vi =>
      let mm := (dictGet st.models model_id).getD ⟨[], none, 0⟩
      let mm2 : ModelMeta :=
        { mm with
            versions := activateFirst (deactivateAll mm.versions) version_id now,
            current_version := some version_id }
      let b := (dictGet st.versionBlobs vi.model_path).getD []
      (.ok (),
       { st with
           models := dictSet st.models model_id mm2,
           mainModels := dictSet st.mainModels model_id b })

/-- One reported difference of `compare_versions`: both values, the raw
change `v2 - v1`, and the percent change (0 when the first value is 0). -/
structure DiffEntry : Type where
  version_1 : ℚ
  version_2 : ℚ
  difference : ℚ
  percent_change : ℚ
deriving DecidableEq

/-- Metrics loop of `compare_versions`: for each key of the first version's
metrics that is also a key of the second version's metrics, try `float` on
both values and record the diff; a `ValueError`/`TypeError` skips the key. -/
def metricsDiff (m1 m2 : List (String × MVal)) : List (String × DiffEntry) :=
  match m1 with
  | [] => []
  | (k, v) :: t =>
      match dictGet m2 k with
      | none => metricsDiff t m2
      | some w =>
          match floatOf v, floatOf w with
          | some q1, some q2 =>
              (k, ⟨q1, q2, q2 - q1,
                   if q1 ≠ 0 then (q2 - q1) / q1 * 100 else 0⟩) :: metricsDiff t m2
          | _, _ => metricsDiff t m2

/-- Echo of one compared version inside the comparison payload. -/
structure VersionSummary : Type where
  version_id : String
  created_at : Nat
  metadata : Option VMeta
  is_active : Bool
deriving DecidableEq

/-- Payload of a successful `compare_versions`: the two version summaries and,
when both versions carry a `metrics` dict, the numeric metrics diff. -/
structure Comparison : Type where
  version_1 : VersionSummary
  version_2 : VersionSummary
  metrics_diff : Option (List (String × DiffEntry))
deriving DecidableEq

/-- Metrics dict of a record, when its metadata carries one. -/
def metaMetrics (vi : VersionInfo) : Option (List (String × MVal)) :=
  match vi.metadata with
  | none => none
  | some m => m.metrics

/-- Embedding of `ModelVersionManager.compare_versions`: fetch both versions
through `get_version` (the first failure is returned as-is) and build the
comparison; `differences["metrics"]` is produced only when both versions
have a `metrics` dict in their metadata. -/
def compare_versions (st : RegistryState) (model_id : String)
    (version_id_1 version_id_2 : String) : Except VErr Comparison :=
  match get_version st model_id version_id_1 with
  | .error e => .error e
  | .ok vi1 =>
      match get_version st model_id version_id_2 with
      | .error e => .error e
      | .ok vi2 =>
          .ok
            { version_1 := ⟨vi1.version_id, vi1.created_at, vi1.metadata, vi1.is_active⟩,
              version_2 := ⟨vi2.version_id, vi2.created_at, vi2.metadata, vi2.is_active⟩,
              metrics_diff :=
                match metaMetrics vi1, metaMetrics vi2 with
                | some m1, some m2 => some (metricsDiff m1 m2)
                | _, _ => none }

/-- Removal loop of `delete_version`: pop the first record with the id. -/
def removeFirstVersion (vs : List VersionInfo) (version_id : String) :
    List VersionInfo :=
  match vs with
  | [] => []
  | v :: t => if v.version_id = version_id then t else v :: removeFirstVersion t version_id

/-- Embedding of `ModelVersionManager.delete_version`: refuse when the target
is `current_version` (state untouched), report an error when the id is absent
(state untouched), otherwise pop the first matching record, delete its blob
directory, and save; remaining records are not renumbered. -/
def delete_version (st : RegistryState) (model_id : String) (version_id : String) :
    Except VErr Nat × RegistryState :=
  match dictGet st.models model_id with
  | none => (.error .modelNotFound, st)
  | some mm =>
      if mm.current_version = some version_id then (.error .invalidOperation, st)
      else
        match mm.versions.find? (fun v => v.version_id == version_id) with
        | none => (.error .versionNotFound, st)
        | some vi =>
            let vs := removeFirstVersion mm.versions version_id
            (.ok vs.length,
             { st with
                 models := dictSet st.models model_id { mm with versions := vs },
                 versionBlobs := dictRemove st.versionBlobs vi.model_path })

/-- One command-line invocation of the manager, as dispatched by `main`. -/
inductive Op : Type where
  | createOp (model_id : String) (modelBytes : List Nat) (version_tag : Option String)
      (metadata : Option VMeta) (now : Nat)
  | rollbackOp (model_id : String) (version_id : String) (now : Nat)
  | deleteOp (model_id : String) (version_id : String)
deriving DecidableEq

/-- State reached after one operation. -/
def applyOp (st : RegistryState) : Op → RegistryState
  | .createOp model_id bytes tag meta now => (create_version st model_id bytes tag meta now).2
  | .rollbackOp model_id version_id now => (rollback st model_id version_id now).2
  | .deleteOp model_id version_id => (delete_version st model_id version_id).2

/-- State reached after a sequence of operations. -/
def runOps (st : RegistryState) (ops : List Op) : RegistryState :=
  ops.foldl applyOp st

/-- Number of records of a model whose `is_active` flag is set. -/
def countActive (st : RegistryState) (model_id : String) : Nat :=
  match dictGet st.models model_id with
  | none => 0
  | some mm => (mm.versions.filter (fun v => v.is_active)).length

/-- Number of versions currently stored for a model. -/
def numVersions (st : RegistryState) (model_id : String) : Nat :=
  match dictGet st.models model_id with
  | none => 0
  | some mm => mm.versions.length

/-- Version numbers handed out by the `create_version` calls of a sequence,
in order. -/
def assignedVersionNumbers (st : RegistryState) : List Op → List Nat
  | [] => []
  | op :: t =>
      match op with
      | .createOp model_id bytes tag meta now =>
          (create_version st model_id bytes tag meta now).1.version_info.version_number ::
            assignedVersionNumbers (applyOp st op) t
      | _ => assignedVersionNumbers (applyOp st op) t

/-- Recognizer for `create_version` calls on a fixed model. -/
def isCreateOn (model_id : String) : Op → Bool
  | .createOp m _ _ _ _ => m == model_id
  | _ => false

/-- Concrete scenario: create v1 (active), create v2, delete the non-active
v2, create again — the last create reassigns version number 2. -/
def numberReuseOps : List Op :=
  [.createOp "m" [1] none none 0,
   .createOp "m" [2] none none 1,
   .deleteOp "m" "v2",
   .createOp "m" [3] none none 2]

/-- Concrete registry with versions v1 (active) and v2 of model `"m"`. -/
def twoVersionState : RegistryState :=
  runOps emptyRegistry [.createOp "m" [1] none none 0, .createOp "m" [2] none none 1]

/-- Metadata entry of model `"m"` in `twoVersionState`. -/
def twoVersionMeta : ModelMeta :=
  (dictGet twoVersionState.models "m").getD ⟨[], none, 0⟩

/-- Concrete registry with the single active version v1 of model `"m"`. -/
def oneVersionState : RegistryState :=
  runOps emptyRegistry [.createOp "m" [5] none none 0]

/-- Metadata entry of model `"m"` in `oneVersionState`. -/
def oneVersionMeta : ModelMeta :=
  (dictGet oneVersionState.models "m").getD ⟨[], none, 0⟩

/-- Record of version v1 in `oneVersionState`. -/
def oneVersionV1 : VersionInfo :=
  (oneVersionMeta.versions.find? (fun v => v.version_id == "v1")).getD
    ⟨"", 0, none, ("", ""), 0, 0, none, false, none⟩

/-- The registry `oneVersionState` after the stored blob of v1 is mutated on
disk behind the manager's back. -/
def corruptedState : RegistryState :=
  { oneVersionState with
      versionBlobs := dictSet oneVersionState.versionBlobs ("m", "v1") [9] }

/-- Effect on the version list that rolling back to the already-active
version is expected to have: only the target record's `rollback_at` field is
rewritten.  This is the comparison point for the amended C8. -/
def stampRollback (vs : List VersionInfo) (version_id : String) (now : Nat) :
    List VersionInfo :=
  vs.map (fun v => if v.version_id = version_id
    then { v with rollback_at := some now } else v)

/-- Example metrics dict of a first version: one numeric entry, one entry on
which `float` raises. -/
def exampleMetrics1 : List (String × MVal) := [("rmse", .num 4), ("acc", .nonnum)]

/-- Example metrics dict of a second version. -/
def exampleMetrics2 : List (String × MVal) := [("rmse", .num 5)]

/-- Concrete registry whose two versions of `"m"` both carry metrics. -/
def metricsState : RegistryState :=
  runOps emptyRegistry
    [.createOp "m" [1] none (some ⟨false, some exampleMetrics1⟩) 0,
     .createOp "m" [2] none (some ⟨false, some exampleMetrics2⟩) 1]

/-- Record of version v1 in `metricsState`. -/
def metricsV1 : VersionInfo :=
  (((dictGet metricsState.models "m").getD ⟨[], none, 0⟩).versions.find?
      (fun v => v.version_id == "v1")).getD
    ⟨"", 0, none, ("", ""), 0, 0, none, false, none⟩

/-- Record of version v2 in `metricsState`. -/
def metricsV2 : VersionInfo :=
  (((dictGet metricsState.models "m").getD ⟨[], none, 0⟩).versions.find?
      (fun v => v.version_id == "v2")).getD
    ⟨"", 0, none, ("", ""), 0, 0, none, false, none⟩

end ModelVersionManager

/-! Association-list lemmas: behaviour of the dict operations. -/

theorem dictGet_dictSet_self {α β : Type} [DecidableEq α] (l : List (α × β)) (k : α) (v : β) :
    dictGet (dictSet l k v) k = some v := by
  induction l with
  | nil => simp [dictGet, dictSet]
  | cons p t ih =>
      obtain ⟨k1, v1⟩ := p
      by_cases h : k1 = k
      · simp [dictGet, dictSet, h]
      · simp [dictGet, dictSet, h, ih]

theorem dictGet_dictRemove_self {α β : Type} [DecidableEq α]
    (l : List (α × β)) (k : α) (hl : (l.map Prod.fst).Nodup) :
    dictGet (dictRemove l k) k = none := by
  induction l with
  | nil => simp [dictGet, dictRemove]
  | cons p t ih =>
      obtain ⟨k1, v1⟩ := p
      simp only [List.map_cons, List.nodup_cons] at hl
      by_cases h : k1 = k
      · subst h
        cases hfind : dictGet t k1 with
        | none => simp [dictRemove, hfind]
        | some w =>
            exfalso
            apply hl.1
            clear ih hl
            induction t with
            | nil => simp [dictGet] at hfind
            | cons q s ihs =>
                obtain ⟨k2, v2⟩ := q
                simp only [dictGet] at hfind
                by_cases h2 : k2 = k1
                · simp [h2]
                · simp only [if_neg h2] at hfind
                  simp [ihs hfind]
      · simp [dictRemove, h, dictGet, ih hl.2]

theorem dictGet_eq_none_of_not_mem {α β : Type} [DecidableEq α]
    (l : List (α × β)) (k : α) (hk : k ∉ l.map Prod.fst) : dictGet l k = none := by
  induction l with
  | nil => rfl
  | cons p t ih =>
      obtain ⟨k1, v1⟩ := p
      simp only [List.map_cons, List.mem_cons] at hk
      push_neg at hk
      simp only [dictGet]
      rw [if_neg (fun h => hk.1 h.symm)]
      exact ih hk.2

theorem dictSet_keys_mem {α β : Type} [DecidableEq α]
    (l : List (α × β)) (k : α) (v : β) (a : α)
    (ha : a ∈ (dictSet l k v).map Prod.fst) : a = k ∨ a ∈ l.map Prod.fst := by
  induction l with
  | nil => simpa [dictSet] using ha
  | cons p t ih =>
      obtain ⟨k1, v1⟩ := p
      by_cases h : k1 = k
      · subst h
        simpa [dictSet] using ha
      · simp only [dictSet, if_neg h, List.map_cons, List.mem_cons] at ha
        rcases ha with ha | ha
        · right; simp [ha]
        · rcases ih ha with ha1 | ha1
          · exact Or.inl ha1
          · right; simp [ha1]

theorem dictSet_keys_nodup {α β : Type} [DecidableEq α]
    (l : List (α × β)) (k : α) (v : β) (hl : (l.map Prod.fst).Nodup) :
    ((dictSet l k v).map Prod.fst).Nodup := by
  induction l with
  | nil => simp [dictSet]
  | cons p t ih =>
      obtain ⟨k1, v1⟩ := p
      simp only [List.map_cons, List.nodup_cons] at hl
      by_cases h : k1 = k
      · subst h
        simpa [dictSet] using hl
      · simp only [dictSet, if_neg h, List.map_cons, List.nodup_cons]
        refine ⟨fun hmem => ?_, ih hl.2⟩
        rcases dictSet_keys_mem t k v k1 hmem with h1 | h1
        · exact h h1
        · exact hl.1 h1

/-! ModelCache lemmas and claims. -/

namespace ModelCache

theorem sorted_keyLT_of_sorted_keyLE (l : List (String × JVal))
    (hnd : (l.map Prod.fst).Nodup) (hs : List.Sorted keyLE l) :
    List.Sorted keyLT l := by
  have hp : l.Pairwise (fun p q : String × JVal => p.1 ≠ q.1) := by
    have h1 : (l.map Prod.fst).Pairwise (fun a b => a ≠ b) := hnd
    exact (List.pairwise_map).mp h1
  have hq : l.Pairwise (fun p q : String × JVal => keyLE p q ∧ p.1 ≠ q.1) := hs.and hp
  exact hq.imp (fun h => lt_of_le_of_ne h.1 h.2)

theorem insertionSort_canonical (c1 c2 : List (String × JVal))
    (hperm : List.Perm c1 c2) (hnd : (c1.map Prod.fst).Nodup) :
    c1.insertionSort keyLE = c2.insertionSort keyLE := by
  have hp : List.Perm (c1.insertionSort keyLE) (c2.insertionSort keyLE) :=
    ((List.perm_insertionSort keyLE c1).trans hperm).trans
      (List.perm_insertionSort keyLE c2).symm
  have hnd1 : ((c1.insertionSort keyLE).map Prod.fst).Nodup :=
    (((List.perm_insertionSort keyLE c1)).map Prod.fst).nodup_iff.mpr hnd
  have hnd2 : ((c2.insertionSort keyLE).map Prod.fst).Nodup :=
    (hp.map Prod.fst).symm.nodup_iff.mpr hnd1
  exact List.eq_of_perm_of_sorted (r := keyLT) hp
    (sorted_keyLT_of_sorted_keyLE _ hnd1 (List.sorted_insertionSort keyLE c1))
    (sorted_keyLT_of_sorted_keyLE _ hnd2 (List.sorted_insertionSort keyLE c2))

/-- C5: for every artifact kind and every pair of configurations that are
equal as key-value mappings (differing only in key order), the derived cache
key string — and hence its SHA-256 digest, a deterministic function of it —
is identical; the key is a pure function of (kind, configuration). -/
theorem cache_key_independent_of_key_order (model_type : String)
    (c1 c2 : List (String × JVal))
    (hperm : List.Perm c1 c2) (hnd : (c1.map Prod.fst).Nodup) :
    generate_cache_key model_type c1 = generate_cache_key model_type c2 := by
  unfold generate_cache_key jsonDumpsSorted
  rw [insertionSort_canonical c1 c2 hperm hnd]

/-- Witness for C5 at a concrete pair of reordered configurations. -/
theorem cache_key_independent_of_key_order_witness :
    List.Perm [("n_estimators", JVal.jnum 100), ("max_depth", JVal.jnum 5)]
      [("max_depth", JVal.jnum 5), ("n_estimators", JVal.jnum 100)] ∧
    generate_cache_key "random_forest" [("n_estimators", JVal.jnum 100), ("max_depth", JVal.jnum 5)]
      = generate_cache_key "random_forest"
          [("max_depth", JVal.jnum 5), ("n_estimators", JVal.jnum 100)] :=
  ⟨List.Perm.swap _ _ _,
   cache_key_independent_of_key_order "random_forest" _ _ (List.Perm.swap _ _ _) (by decide)⟩

/-- C6: an entry stored at time `t` with ttl `T = ttl_hours` is a hit
returning the stored artifact for a `get` of the same (kind, configuration)
at any time strictly before `t + T` (the code tests `now < createdAt + ttl`),
and a miss at or after `t + T`, with the expired entry — blob and metadata —
removed on that access. -/
theorem ttl_hit_before_miss_after (st : CacheState) (model_type : String)
    (config : List (String × JVal)) (bytes : List Nat)
    (metadata : Option (List (String × JVal))) (t now : ℚ)
    (hndm : (st.metadata.map Prod.fst).Nodup)
    (hndb : (st.blobs.map Prod.fst).Nodup) :
    (now < t + st.ttl_hours →
        (get (set st model_type config bytes metadata t) model_type config now).1
          = some bytes)
    ∧ (t + st.ttl_hours ≤ now →
        (get (set st model_type config bytes metadata t) model_type config now).1 = none
        ∧ dictGet (get (set st model_type config bytes metadata t) model_type config now).2.blobs
            (generate_cache_key model_type config) = none
        ∧ dictGet (get (set st model_type config bytes metadata t) model_type config now).2.metadata
            (generate_cache_key model_type config) = none) := by
  have hbl : dictGet (set st model_type config bytes metadata t).blobs
      (generate_cache_key model_type config) = some (.good bytes) := by
    simp [set, dictGet_dictSet_self]
  have hmd : dictGet (set st model_type config bytes metadata t).metadata
      (generate_cache_key model_type config)
      = some ⟨model_type, config, t, t, bytes.length, metadata.getD []⟩ := by
    simp [set, dictGet_dictSet_self]
  have httl : (set st model_type config bytes metadata t).ttl_hours = st.ttl_hours := rfl
  constructor
  · intro hvalid
    have hv : is_cache_valid (set st model_type config bytes metadata t)
        (generate_cache_key model_type config) now = true := by
      simp [is_cache_valid, hmd, httl, hvalid]
    simp [get, hbl, hv]
  · intro hexp
    have hv : is_cache_valid (set st model_type config bytes metadata t)
        (generate_cache_key model_type config) now = false := by
      simp [is_cache_valid, hmd, httl]
      exact hexp
    have hndm2 : ((set st model_type config bytes metadata t).metadata.map Prod.fst).Nodup := by
      simpa [set] using dictSet_keys_nodup st.metadata _ _ hndm
    have hndb2 : ((set st model_type config bytes metadata t).blobs.map Prod.fst).Nodup := by
      simpa [set] using dictSet_keys_nodup st.blobs _ _ hndb
    refine ⟨?_, ?_, ?_⟩
    · simp [get, hbl, hv]
    · simp [get, hbl, hv, remove_cache, dictGet_dictRemove_self _ _ hndb2]
    · simp [get, hbl, hv, remove_cache, dictGet_dictRemove_self _ _ hndm2]

/-- Witness for C6: one concrete store, a hit strictly inside the TTL
window and a miss at the boundary. -/
theorem ttl_hit_before_miss_after_witness :
    ((1 : ℚ) < 0 + emptyCache.ttl_hours
      → (get (set emptyCache "rf" [] [7] none 0) "rf" [] 1).1 = some [7])
    ∧ ((0 : ℚ) + emptyCache.ttl_hours ≤ 24
      → (get (set emptyCache "rf" [] [7] none 0) "rf" [] 24).1 = none
        ∧ dictGet (get (set emptyCache "rf" [] [7] none 0) "rf" [] 24).2.blobs
            (generate_cache_key "rf" []) = none
        ∧ dictGet (get (set emptyCache "rf" [] [7] none 0) "rf" [] 24).2.metadata
            (generate_cache_key "rf" []) = none) :=
  ⟨(ttl_hit_before_miss_after emptyCache "rf" [] [7] none 0 1 (by decide) (by decide)).1,
   (ttl_hit_before_miss_after emptyCache "rf" [] [7] none 0 24 (by decide) (by decide)).2⟩

/-- C7: a `get` whose stored blob cannot be unpickled returns a miss rather
than propagating the failure, and the invalid entry is self-healed: both the
blob and its metadata entry are removed. -/
theorem corrupted_blob_treated_as_miss (st : CacheState) (model_type : String)
    (config : List (String × JVal)) (now : ℚ)
    (hb : dictGet st.blobs (generate_cache_key model_type config) = some .corrupt)
    (hv : is_cache_valid st (generate_cache_key model_type config) now = true)
    (hndm : (st.metadata.map Prod.fst).Nodup)
    (hndb : (st.blobs.map Prod.fst).Nodup) :
    get st model_type config now
        = (none, remove_cache st (generate_cache_key model_type config))
    ∧ dictGet (remove_cache st (generate_cache_key model_type config)).blobs
        (generate_cache_key model_type config) = none
    ∧ dictGet (remove_cache st (generate_cache_key model_type config)).metadata
        (generate_cache_key model_type config) = none := by
  refine ⟨?_, ?_, ?_⟩
  · simp [get, hb, hv]
  · simp [remove_cache, dictGet_dictRemove_self _ _ hndb]
  · simp [remove_cache, dictGet_dictRemove_self _ _ hndm]

/-- Witness for C7 at a concrete state holding one corrupted blob. -/
theorem corrupted_blob_treated_as_miss_witness :
    get ⟨[(generate_cache_key "rf" [], .corrupt)],
         [(generate_cache_key "rf" [], ⟨"rf", [], 0, 0, 3, []⟩)], 24⟩ "rf" [] 1
        = (none, remove_cache ⟨[(generate_cache_key "rf" [], .corrupt)],
            [(generate_cache_key "rf" [], ⟨"rf", [], 0, 0, 3, []⟩)], 24⟩
            (generate_cache_key "rf" []))
    ∧ dictGet (remove_cache ⟨[(generate_cache_key "rf" [], .corrupt)],
         [(generate_cache_key "rf" [], ⟨"rf", [], 0, 0, 3, []⟩)], 24⟩
         (generate_cache_key "rf" [])).blobs (generate_cache_key "rf" []) = none
    ∧ dictGet (remove_cache ⟨[(generate_cache_key "rf" [], .corrupt)],
         [(generate_cache_key "rf" [], ⟨"rf", [], 0, 0, 3, []⟩)], 24⟩
         (generate_cache_key "rf" [])).metadata (generate_cache_key "rf" []) = none :=
  corrupted_blob_treated_as_miss _ "rf" [] 1 (by simp [dictGet])
    (by simp [is_cache_valid, dictGet]) (by decide) (by decide)

/-- C10: when the metadata document still holds an entry for the derived key
but the blob file is gone, `get` is a miss that leaves the whole state — in
particular the dangling metadata entry — unchanged, and `get_stats` keeps
counting the entry in its totals. -/
theorem dangling_metadata_entry_kept (st : CacheState) (model_type : String)
    (config : List (String × JVal)) (now : ℚ) (e : CacheEntry)
    (hb : dictGet st.blobs (generate_cache_key model_type config) = none)
    (hmd : dictGet st.metadata (generate_cache_key model_type config) = some e) :
    get st model_type config now = (none, st)
    ∧ (get_stats st now).total_models = st.metadata.length
    ∧ 0 < (get_stats st now).total_models := by
  refine ⟨by simp [get, hb], rfl, ?_⟩
  show 0 < st.metadata.length
  cases hl : st.metadata with
  | nil => rw [hl] at hmd; simp [dictGet] at hmd
  | cons p l => simp

/-- Witness for C10 at a concrete state with one dangling metadata entry. -/
theorem dangling_metadata_entry_kept_witness :
    get ⟨[], [(generate_cache_key "rf" [], ⟨"rf", [], 0, 0, 3, []⟩)], 24⟩ "rf" [] 1
        = (none, ⟨[], [(generate_cache_key "rf" [], ⟨"rf", [], 0, 0, 3, []⟩)], 24⟩)
    ∧ (get_stats ⟨[], [(generate_cache_key "rf" [], ⟨"rf", [], 0, 0, 3, []⟩)], 24⟩ 1).total_models
        = [(generate_cache_key "rf" [], (⟨"rf", [], 0, 0, 3, []⟩ : CacheEntry))].length
    ∧ 0 < (get_stats ⟨[], [(generate_cache_key "rf" [], ⟨"rf", [], 0, 0, 3, []⟩)], 24⟩ 1).total_models :=
  dangling_metadata_entry_kept _ "rf" [] 1 ⟨"rf", [], 0, 0, 3, []⟩ (by simp [dictGet])
    (by simp [dictGet])

end ModelCache

/-! ModelVersionManager lemmas and claims. -/

namespace ModelVersionManager

/-- C1: the exactly-one-active invariant is broken by the code.  Starting
from a fresh registry, `create_version` of a first version (active) followed
by `create_version` of a second version whose metadata requests activation
leaves both records with `is_active = true`: the activating branch sets the
new record active and moves `current_version`, but never clears the previous
active record's flag (unlike `rollback`, which deactivates every record
first). -/
theorem create_version_leaves_two_active :
    countActive
      (runOps emptyRegistry
        [.createOp "m" [1] none none 0,
         .createOp "m" [2] none (some ⟨true, none⟩) 1]) "m" = 2 := by
  decide

/-- C2 counterexample: with a deletion of a non-active version interleaved,
`create_version` hands out `len(versions) + 1` and therefore reassigns
version number 2 — the numbers are not strictly increasing and number 2 is
reused after the deletion. -/
theorem version_number_reused_after_delete :
    assignedVersionNumbers emptyRegistry numberReuseOps = [1, 2, 2]
    ∧ ¬ (assignedVersionNumbers emptyRegistry numberReuseOps).Nodup := by
  decide

theorem create_version_assigns_succ (st : RegistryState) (model_id : String)
    (bytes : List Nat) (tag : Option String) (meta : Option VMeta) (now : Nat) :
    (create_version st model_id bytes tag meta now).1.version_info.version_number
      = numVersions st model_id + 1 := by
  unfold create_version numVersions
  cases h : dictGet st.models model_id <;> simp [h]

theorem numVersions_create (st : RegistryState) (model_id : String)
    (bytes : List Nat) (tag : Option String) (meta : Option VMeta) (now : Nat) :
    numVersions (create_version st model_id bytes tag meta now).2 model_id
      = numVersions st model_id + 1 := by
  unfold create_version numVersions
  cases h : dictGet st.models model_id <;> simp [h, dictGet_dictSet_self]

theorem assigned_numbers_create_only (model_id : String) (ops : List Op) :
    ∀ st : RegistryState, ops.all (isCreateOn model_id) = true →
      assignedVersionNumbers st ops
        = List.range' (numVersions st model_id + 1) ops.length := by
  induction ops with
  | nil => intro st _; simp [assignedVersionNumbers]
  | cons op t ih =>
      intro st h
      simp only [List.all_cons, Bool.and_eq_true] at h
      obtain ⟨hop, ht⟩ := h
      cases op with
      | createOp m bytes tag meta now =>
          have hm : m = model_id := by simpa [isCreateOn] using hop
          subst hm
          simp only [assignedVersionNumbers, applyOp]
          rw [create_version_assigns_succ, ih _ ht, numVersions_create]
          rfl
      | rollbackOp m v now => simp [isCreateOn] at hop
      | deleteOp m v => simp [isCreateOn] at hop

/-- C2 amended: for a sequence of `create_version` calls on the same
`model_id` with no interleaved deletions, the assigned version numbers are
`1, 2, 3, …` — strictly increasing with no gaps and no reuse.  (With a
deletion interleaved, the next number is `len(versions) + 1` and a freed
number is reassigned, as the counterexample shows.) -/
theorem version_numbers_sequential_without_delete (ops : List Op) (model_id : String)
    (h : ops.all (isCreateOn model_id) = true) :
    assignedVersionNumbers emptyRegistry ops = List.range' 1 ops.length := by
  have hrun := assigned_numbers_create_only model_id ops emptyRegistry h
  simpa [numVersions, emptyRegistry, dictGet] using hrun

/-- Witness for the amended C2 at a concrete sequence of three creates. -/
theorem version_numbers_sequential_without_delete_witness :
    ([Op.createOp "m" [1] none none 0,
      Op.createOp "m" [2] none none 1,
      Op.createOp "m" [3] none none 2].all (isCreateOn "m") = true)
    ∧ assignedVersionNumbers emptyRegistry
        [Op.createOp "m" [1] none none 0,
         Op.createOp "m" [2] none none 1,
         Op.createOp "m" [3] none none 2]
      = List.range' 1 [Op.createOp "m" [1] none none 0,
         Op.createOp "m" [2] none none 1,
         Op.createOp "m" [3] none none 2].length :=
  ⟨by decide,
   version_numbers_sequential_without_delete
     [Op.createOp "m" [1] none none 0,
      Op.createOp "m" [2] none none 1,
      Op.createOp "m" [3] none none 2] "m" (by decide)⟩

theorem removeFirstVersion_sublist (vs : List VersionInfo) (version_id : String) :
    (removeFirstVersion vs version_id).Sublist vs := by
  induction vs with
  | nil => simp [removeFirstVersion]
  | cons v t ih =>
      by_cases h : v.version_id = version_id
      · simp only [removeFirstVersion, if_pos h]
        exact List.sublist_cons_self v t
      · simpa [removeFirstVersion, h] using ih.cons₂ v

/-- C3: `delete_version` on the currently active version fails with the
invalid-operation error and leaves the registry — metadata and blobs —
untouched; on a non-active existing version it removes exactly the first
record with that id together with its blob, the surviving records (and hence
their version numbers) being a sublist of the originals, untouched. -/
theorem delete_version_guard_and_frame (st : RegistryState)
    (model_id version_id : String) (mm : ModelMeta)
    (hm : dictGet st.models model_id = some mm) :
    (mm.current_version = some version_id →
        delete_version st model_id version_id = (.error .invalidOperation, st))
    ∧ (mm.current_version ≠ some version_id →
        ∀ vi, mm.versions.find? (fun v => v.version_id == version_id) = some vi →
          delete_version st model_id version_id
            = (.ok (removeFirstVersion mm.versions version_id).length,
               { st with
                   models := dictSet st.models model_id
                     { mm with versions := removeFirstVersion mm.versions version_id },
                   versionBlobs := dictRemove st.versionBlobs vi.model_path })
          ∧ (removeFirstVersion mm.versions version_id).Sublist mm.versions) := by
  constructor
  · intro hcur
    simp [delete_version, hm, hcur]
  · intro hcur vi hfind
    exact ⟨by simp [delete_version, hm, hcur, hfind], removeFirstVersion_sublist _ _⟩

/-- Witness for C3 at a concrete two-version registry: deleting the active
`v1` is refused and the whole state, blobs included, is returned intact. -/
theorem delete_version_guard_and_frame_witness :
    delete_version twoVersionState "m" "v1" = (.error .invalidOperation, twoVersionState) :=
  (delete_version_guard_and_frame twoVersionState "m" "v1" twoVersionMeta (by decide)).1
    (by decide)

theorem get_version_ok (st : RegistryState) (model_id version_id : String)
    (mm : ModelMeta) (vi : VersionInfo) (b : List Nat)
    (hm : dictGet st.models model_id = some mm)
    (hfind : mm.versions.find? (fun v => v.version_id == version_id) = some vi)
    (hb : dictGet st.versionBlobs vi.model_path = some b)
    (hh : contentDigest b = vi.model_hash) :
    get_version st model_id version_id = .ok vi := by
  simp [get_version, hm, hfind, hb, hh]

/-- C4: for a stored version record whose blob file holds bytes `b`, if the
recomputed content hash of `b` differs from the recorded hash — as after any
mutation of the blob — then `get_version` fails with the integrity-violation
error and every `rollback` to the record fails the same way without touching
the state; if the recomputed hash matches, `get_version` returns the record
with no such error. -/
theorem integrity_violation_on_mutated_blob (st : RegistryState)
    (model_id version_id : String) (mm : ModelMeta) (vi : VersionInfo) (b : List Nat)
    (hm : dictGet st.models model_id = some mm)
    (hfind : mm.versions.find? (fun v => v.version_id == version_id) = some vi)
    (hb : dictGet st.versionBlobs vi.model_path = some b) :
    (contentDigest b ≠ vi.model_hash →
        get_version st model_id version_id = .error .integrityViolation
        ∧ ∀ now, rollback st model_id version_id now = (.error .integrityViolation, st))
    ∧ (contentDigest b = vi.model_hash →
        get_version st model_id version_id = .ok vi) := by
  constructor
  · intro hne
    have hget : get_version st model_id version_id = .error .integrityViolation := by
      simp [get_version, hm, hfind, hb, hne]
    exact ⟨hget, fun now => by simp [rollback, hget]⟩
  · intro heq
    exact get_version_ok st model_id version_id mm vi b hm hfind hb heq

/-- Witness for C4: in `corruptedState` the blob of v1 was overwritten, so
`get_version` and `rollback` fail with the integrity error; in the pristine
`oneVersionState` the same lookup succeeds. -/
theorem integrity_violation_on_mutated_blob_witness :
    (get_version corruptedState "m" "v1" = .error .integrityViolation
      ∧ rollback corruptedState "m" "v1" 3 = (.error .integrityViolation, corruptedState))
    ∧ get_version oneVersionState "m" "v1" = .ok oneVersionV1 := by
  constructor
  · have h := (integrity_violation_on_mutated_blob corruptedState "m" "v1"
      oneVersionMeta oneVersionV1 [9] (by decide) (by decide) (by decide)).1 (by decide)
    exact ⟨h.1, h.2 3⟩
  · exact (integrity_violation_on_mutated_blob oneVersionState "m" "v1"
      oneVersionMeta oneVersionV1 [5] (by decide) (by decide) (by decide)).2 (by decide)

/-- C8 counterexample: rolling back to the already-active v1 of a one-version
registry succeeds but does not leave the registry state unchanged — the code
stamps `rollback_at` on the record (and rewrites the main model file), so the
resulting state differs from the starting one. -/
theorem rollback_to_active_changes_state :
    (rollback oneVersionState "m" "v1" 7).1.isOk = true
    ∧ (rollback oneVersionState "m" "v1" 7).2 ≠ oneVersionState := by
  decide

theorem set_inactive_self (v : VersionInfo) (h : v.is_active = false) :
    ({ v with is_active := false } : VersionInfo) = v := by
  cases v
  simp_all

theorem deactivateAll_id (vs : List VersionInfo)
    (h : ∀ v ∈ vs, v.is_active = false) : deactivateAll vs = vs := by
  induction vs with
  | nil => rfl
  | cons v t ih =>
      simp only [deactivateAll, List.map_cons]
      rw [set_inactive_self v (h v (List.mem_cons_self v t))]
      have := ih (fun w hw => h w (List.mem_cons_of_mem v hw))
      simpa [deactivateAll] using this

theorem stampRollback_id (vs : List VersionInfo) (version_id : String) (now : Nat)
    (h : ∀ v ∈ vs, v.version_id ≠ version_id) :
    stampRollback vs version_id now = vs := by
  induction vs with
  | nil => rfl
  | cons v t ih =>
      simp only [stampRollback, List.map_cons]
      rw [if_neg (h v (List.mem_cons_self v t))]
      have := ih (fun w hw => h w (List.mem_cons_of_mem v hw))
      simpa [stampRollback] using this

theorem activateFirst_deactivateAll_eq_stamp (vs : List VersionInfo)
    (version_id : String) (now : Nat)
    (hnd : (vs.map (fun v => v.version_id)).Nodup)
    (hact : ∀ v ∈ vs, v.is_active = true ↔ v.version_id = version_id) :
    activateFirst (deactivateAll vs) version_id now = stampRollback vs version_id now := by
  induction vs with
  | nil => rfl
  | cons v t ih =>
      simp only [List.map_cons, List.nodup_cons] at hnd
      by_cases h : v.version_id = version_id
      · have hvact : v.is_active = true :=
          (hact v (List.mem_cons_self v t)).mpr h
        have htne : ∀ w ∈ t, w.version_id ≠ version_id := by
          intro w hw hwid
          apply hnd.1
          rw [h, ← hwid]
          exact List.mem_map_of_mem _ hw
        have htinact : ∀ w ∈ t, w.is_active = false := by
          intro w hw
          have := hact w (List.mem_cons_of_mem v hw)
          have hne := htne w hw
          cases hb : w.is_active with
          | false => rfl
          | true => exact absurd (this.mp hb) hne
        simp only [deactivateAll, List.map_cons, activateFirst, stampRollback]
        rw [if_pos (show ({ v with is_active := false } : VersionInfo).version_id = version_id from h)]
        rw [if_pos h]
        have hhd : ({ { v with is_active := false } with
            is_active := true, rollback_at := some now } : VersionInfo)
            = { v with rollback_at := some now } := by
          cases v
          simp_all
        rw [hhd]
        have h1 : deactivateAll t = t := deactivateAll_id t htinact
        have h2 : stampRollback t version_id now = t := stampRollback_id t version_id now htne
        simp only [deactivateAll] at h1
        simp only [stampRollback] at h2
        rw [h1, h2]
      · have hvinact : v.is_active = false := by
          have := hact v (List.mem_cons_self v t)
          cases hb : v.is_active with
          | false => rfl
          | true => exact absurd (this.mp hb) h
        simp only [deactivateAll, List.map_cons, activateFirst, stampRollback]
        rw [set_inactive_self v hvinact]
        rw [if_neg h, if_neg h]
        have := ih hnd.2 (fun w hw => hact w (List.mem_cons_of_mem v hw))
        simp only [deactivateAll, stampRollback] at this
        rw [this]

/-- C8 amended: rolling back to the already-active version of a well-formed
registry (single record per id, `is_active` exactly on the current version)
succeeds and preserves the version list, the numbering, the activation flags
and `current_version`; the only changes are the `rollback_at` timestamp
stamped on the target record and the rewrite of the main model file with the
target version's blob. -/
theorem rollback_to_active_stamps_only (st : RegistryState)
    (model_id version_id : String) (now : Nat) (mm : ModelMeta)
    (vi : VersionInfo) (b : List Nat)
    (hm : dictGet st.models model_id = some mm)
    (hcur : mm.current_version = some version_id)
    (hfind : mm.versions.find? (fun v => v.version_id == version_id) = some vi)
    (hb : dictGet st.versionBlobs vi.model_path = some b)
    (hh : contentDigest b = vi.model_hash)
    (hnd : (mm.versions.map (fun v => v.version_id)).Nodup)
    (hact : ∀ v ∈ mm.versions, v.is_active = true ↔ v.version_id = version_id) :
    rollback st model_id version_id now =
      (.ok (),
       { st with
           models := dictSet st.models model_id
             { mm with
                 versions := stampRollback mm.versions version_id now,
                 current_version := some version_id },
           mainModels := dictSet st.mainModels model_id b }) := by
  have hok : get_version st model_id version_id = .ok vi :=
    get_version_ok st model_id version_id mm vi b hm hfind hb hh
  simp only [rollback, hok, hm, hb, Option.getD_some]
  rw [activateFirst_deactivateAll_eq_stamp mm.versions version_id now hnd hact]

/-- Witness for the amended C8 on the concrete one-version registry. -/
theorem rollback_to_active_stamps_only_witness :
    rollback oneVersionState "m" "v1" 7 =
      (.ok (),
       { oneVersionState with
           models := dictSet oneVersionState.models "m"
             { oneVersionMeta with
                 versions := stampRollback oneVersionMeta.versions "v1" 7,
                 current_version := some "v1" },
           mainModels := dictSet oneVersionState.mainModels "m" [5] }) :=
  rollback_to_active_stamps_only oneVersionState "m" "v1" 7 oneVersionMeta
    oneVersionV1 [5] (by decide) (by decide) (by decide) (by decide) (by decide)
    (by decide) (by decide)

theorem metricsDiff_lookup_of_not_mem (m1 m2 : List (String × MVal)) (k : String)
    (hk : dictGet m1 k = none) : dictGet (metricsDiff m1 m2) k = none := by
  induction m1 with
  | nil => rfl
  | cons p t ih =>
      obtain ⟨k0, v0⟩ := p
      simp only [dictGet] at hk
      by_cases h : k0 = k
      · simp [h] at hk
      · simp only [if_neg h] at hk
        cases h2 : dictGet m2 k0 with
        | none => simpa [metricsDiff, h2] using ih hk
        | some w =>
            cases hv : floatOf v0 with
            | none => simpa [metricsDiff, h2, hv] using ih hk
            | some q1 =>
                cases hw : floatOf w with
                | none => simpa [metricsDiff, h2, hv, hw] using ih hk
                | some q2 => simpa [metricsDiff, h2, hv, hw, dictGet, h] using ih hk

theorem metricsDiff_lookup (m1 m2 : List (String × MVal)) (k : String)
    (hnd : (m1.map Prod.fst).Nodup) :
    dictGet (metricsDiff m1 m2) k
      = match (dictGet m1 k).bind floatOf, (dictGet m2 k).bind floatOf with
        | some q1, some q2 =>
            some ⟨q1, q2, q2 - q1, if q1 ≠ 0 then (q2 - q1) / q1 * 100 else 0⟩
        | _, _ => none := by
  induction m1 with
  | nil => rfl
  | cons p t ih =>
      obtain ⟨k0, v0⟩ := p
      simp only [List.map_cons, List.nodup_cons] at hnd
      by_cases h : k0 = k
      · subst h
        have htnone : dictGet t k0 = none :=
          dictGet_eq_none_of_not_mem t k0 hnd.1
        have hrest : dictGet (metricsDiff t m2) k0 = none :=
          metricsDiff_lookup_of_not_mem t m2 k0 htnone
        cases h2 : dictGet m2 k0 with
        | none =>
            cases hv : floatOf v0 with
            | none => simp [metricsDiff, dictGet, h2, hv, hrest]
            | some q1 => simp [metricsDiff, dictGet, h2, hv, hrest]
        | some w =>
            cases hv : floatOf v0 with
            | none =>
                cases hw : floatOf w with
                | none => simp [metricsDiff, dictGet, h2, hv, hw, hrest]
                | some q2 => simp [metricsDiff, dictGet, h2, hv, hw, hrest]
            | some q1 =>
                cases hw : floatOf w with
                | none => simp [metricsDiff, dictGet, h2, hv, hw, hrest]
                | some q2 => simp [metricsDiff, dictGet, h2, hv, hw]
      · have htail := ih hnd.2
        cases h2 : dictGet m2 k0 with
        | none => simpa [metricsDiff, dictGet, h2, h] using htail
        | some w =>
            cases hv : floatOf v0 with
            | none => simpa [metricsDiff, dictGet, h2, hv, h] using htail
            | some q1 =>
                cases hw : floatOf w with
                | none => simpa [metricsDiff, dictGet, h2, hv, hw, h] using htail
                | some q2 => simpa [metricsDiff, dictGet, h2, hv, hw, h] using htail

/-- C9: for two integrity-valid versions of a model whose metadata both carry
a metrics dict, `compare_versions` succeeds and its numeric diff holds an
entry for exactly the keys that are present and float-convertible in both
dicts, reporting both values, the change `v2 - v1`, and the percent change
`(v2 - v1) / v1 * 100` (0 when `v1 = 0`); non-numeric or one-sided keys are
omitted. -/
theorem compare_versions_numeric_diff (st : RegistryState)
    (model_id version_id_1 version_id_2 : String) (vi1 vi2 : VersionInfo)
    (m1 m2 : List (String × MVal))
    (h1 : get_version st model_id version_id_1 = .ok vi1)
    (h2 : get_version st model_id version_id_2 = .ok vi2)
    (hm1 : metaMetrics vi1 = some m1)
    (hm2 : metaMetrics vi2 = some m2)
    (hnd : (m1.map Prod.fst).Nodup) :
    compare_versions st model_id version_id_1 version_id_2
      = .ok ⟨⟨vi1.version_id, vi1.created_at, vi1.metadata, vi1.is_active⟩,
             ⟨vi2.version_id, vi2.created_at, vi2.metadata, vi2.is_active⟩,
             some (metricsDiff m1 m2)⟩
    ∧ ∀ k, dictGet (metricsDiff m1 m2) k
        = match (dictGet m1 k).bind floatOf, (dictGet m2 k).bind floatOf with
          | some q1, some q2 =>
              some ⟨q1, q2, q2 - q1, if q1 ≠ 0 then (q2 - q1) / q1 * 100 else 0⟩
          | _, _ => none := by
  constructor
  · simp [compare_versions, h1, h2, hm1, hm2]
  · intro k
    exact metricsDiff_lookup m1 m2 k hnd

/-- Witness for C9 on `metricsState`: the shared numeric key `rmse` is
reported with values 4 and 5, change 1 and percent change 25; the key `acc`,
absent from v2 and non-numeric in v1, is omitted. -/
theorem compare_versions_numeric_diff_witness :
    compare_versions metricsState "m" "v1" "v2"
      = .ok ⟨⟨metricsV1.version_id, metricsV1.created_at, metricsV1.metadata, metricsV1.is_active⟩,
             ⟨metricsV2.version_id, metricsV2.created_at, metricsV2.metadata, metricsV2.is_active⟩,
             some (metricsDiff exampleMetrics1 exampleMetrics2)⟩
    ∧ dictGet (metricsDiff exampleMetrics1 exampleMetrics2) "rmse" = some ⟨4, 5, 1, 25⟩
    ∧ dictGet (metricsDiff exampleMetrics1 exampleMetrics2) "acc" = none :=
  ⟨(compare_versions_numeric_diff metricsState "m" "v1" "v2" metricsV1 metricsV2
      exampleMetrics1 exampleMetrics2 rfl rfl rfl rfl (by decide)).1,
   by norm_num [exampleMetrics1, exampleMetrics2, metricsDiff, dictGet, floatOf],
   by
     norm_num [exampleMetrics1, exampleMetrics2, metricsDiff, dictGet, floatOf]
     intro h
     exact absurd h (by decide)⟩

end ModelVersionManager

end MLIH
